import Mathlib

/-!
Verification of the rbxmesh codec (package `rbxmesh`, files `mesh.go`).

Shallow embedding conventions:

* Go `float64` / `float32` values are modelled by `ℚ`.  The IEEE-754
  operations that cannot be embedded exactly — `math.Float32bits`,
  `math.Float32frombits`, the `%f` rendering used by `fmt.Fprintf`, and the
  `%f` parsing performed by `fmt.Fscanf` — are collected in a `FloatModel`
  record and every theorem is stated for an arbitrary such model (concrete
  executable instances are supplied for witnesses).  All arithmetic the
  source performs on floats (`1 - v`, `* 0.5`, `* 2`) is modelled exactly
  over `ℚ`.
* Byte streams are `List ℕ` (each element a byte value).  Strings are
  converted with `strBytes`.
* `Mesh.ReadFrom` wraps its reader in a `bufio.Reader` (buffer size 4096)
  over a byte-counting `readReporter`; the reported count is therefore the
  number of bytes the buffered reader pulled from the source, which for a
  one-shot source (such as `bytes.Reader`) of length ≤ 4096 is the whole
  input, regardless of how much the decoder consumed.  We model the count
  as `min input.length 4096`; count-sensitive theorems restrict to inputs
  of length ≤ 4096.
* The Go map `verts map[MeshVertex]int` assigns indices `0,1,2,…` in
  insertion order, and `m.Vertices[index] = vert` reproduces exactly the
  keys ordered by assigned index.  We model the map by the index-ordered
  list of its keys (`firstIdx` is lookup, appending is insertion).
* On error paths the Go code may leave partially updated `Vertices`/`Faces`
  slices in the mesh; the model returns the previous slices there.  No
  theorem below inspects the mesh after a failed call.
* The repository contains two copies of `mesh.go`; the documented copy
  (the one carrying the package comment) additionally assigns `m.Version`
  and, in the text branch, `m.HasColor = false`.  That copy is embedded.
-/

namespace Rbxmesh

/- Mathlib marks the arithmetic of `ℚ` irreducible, which stops `decide`
from evaluating closed rational computations; restore the default
reducibility for this development. -/
attribute [local semireducible] Rat.sub Rat.add Rat.mul Rat.inv

/-- A 3-component float vector (`[3]float64`), floats modelled by `ℚ`. -/
abbrev Vec3 := ℚ × ℚ × ℚ

/-- `[4]byte` colour channels. -/
abbrev Color4 := ℕ × ℕ × ℕ × ℕ

/-- Go `MeshVertex`: position, normal, texture coordinates and colour. -/
structure MeshVertex where
  Position : Vec3
  Normal : Vec3
  Texture : Vec3
  Color : Color4
deriving DecidableEq

/-- Go `MeshFace`: `[3]int`, three vertex indices. -/
abbrev MeshFace := ℤ × ℤ × ℤ

/-- Go `Mesh`: version tag (`type Version int`, so modelled by `ℤ`;
`Version2_00 = 0`, `Version1_00 = 1`, `Version1_01 = 2`,
`VersionUnknown = -1`), colour flag, vertex list, face list. -/
structure Mesh where
  Version : ℤ
  HasColor : Bool
  Vertices : List MeshVertex
  Faces : List MeshFace
deriving DecidableEq

/-- Layout constants from `mesh.go`. -/
def nHeaderSize : ℕ := 2

def nHeader : ℕ := nHeaderSize + 1 + 1 + 4 + 4

def nVertex : ℕ := (4 + 4 + 4) + (4 + 4 + 4) + (4 + 4 + 4)

def nColor : ℕ := nVertex + (1 + 1 + 1 + 1)

def nFace : ℕ := 4 + 4 + 4

/-- `Version.String`: the canonical signature line text. -/
def versionString (v : ℤ) : String :=
  if v = 1 then "version 1.00"
  else if v = 2 then "version 1.01"
  else if v = 0 then "version 2.00"
  else "version x.xx"

/-- ASCII bytes of a string. -/
def strBytes (s : String) : List ℕ := s.data.map Char.toNat

/-- `VersionFromString` applied to the bytes of a line. -/
def versionFromBytes (bs : List ℕ) : ℤ :=
  if bs = strBytes "version 1.00" then 1
  else if bs = strBytes "version 1.01" then 2
  else if bs = strBytes "version 2.00" then 0
  else -1

/-- The IEEE-754/`fmt` operations abstracted away from the source:
`f32bits` models `math.Float32bits(float32(x))`, `f32from` models
`float64(math.Float32frombits(u))`, `fmtF` models rendering `%f` of a
`float32`, `parseCorner` models `fmt.Fscanf` of the 9-float pattern
`[%f,%f,%f][%f,%f,%f][%f,%f,%f]` (returning position, normal, texture
triples and the unconsumed bytes). -/
structure FloatModel where
  f32bits : ℚ → ℕ
  f32from : ℕ → ℚ
  fmtF : ℚ → String
  parseCorner : List ℕ → Option (Vec3 × Vec3 × Vec3 × List ℕ)

/-! ### Line reading (`bufio.Reader.ReadLine`) -/

/-- Split a byte list at the first newline; the `Bool` records whether a
newline was found (`ReadLine` at EOF returns the remaining bytes). -/
def splitLine : List ℕ → List ℕ × Bool × List ℕ
  | [] => ([], false, [])
  | b :: rest =>
    if b = 10 then ([], true, rest)
    else (b :: (splitLine rest).1, (splitLine rest).2.1, (splitLine rest).2.2)

/-- `bufio.ReadLine`: `none` only on empty input (EOF with no data);
strips the terminating `\n` and a `\r` directly before it. -/
def readLine (s : List ℕ) : Option (List ℕ × List ℕ) :=
  if s.isEmpty then none
  else
    let t := splitLine s
    if t.2.1 = true ∧ t.1.getLast? = some 13 then some (t.1.dropLast, t.2.2)
    else some (t.1, t.2.2)

/-! ### Text decode: face count line -/

/-- The leading run of ASCII digits of the count line (`for ; i < len(line); i++`). -/
def digitRun (bs : List ℕ) : List ℕ := bs.takeWhile (fun b => 48 ≤ b ∧ b ≤ 57)

/-- Decimal value of a digit run. -/
def digitsVal (bs : List ℕ) : ℕ := bs.foldl (fun acc b => acc * 10 + (b - 48)) 0

/-- `strconv.Atoi` on the digit run with the error ignored: the empty
string yields 0, overflow clamps to `maxInt64` (Go returns the clamped
value together with the ignored `ErrRange`). -/
def atoiClamp (bs : List ℕ) : ℕ :=
  if bs = [] then 0 else min (digitsVal bs) 9223372036854775807

/-! ### Text decode: vertex interning (the Go map `verts`) -/

/-- Index of the first occurrence of `v` (the map lookup `verts[v]`). -/
def firstIdx (v : MeshVertex) : List MeshVertex → Option ℕ
  | [] => none
  | w :: ws => if w = v then some 0 else (firstIdx v ws).map (· + 1)

/-- First-occurrence insertion (`verts[v] = len(verts)` when absent). -/
def insertV (acc : List MeshVertex) (v : MeshVertex) : List MeshVertex :=
  if v ∈ acc then acc else acc ++ [v]

/-- Total first-occurrence index (for statements; defaults to 0). -/
def idxOf (v : MeshVertex) (l : List MeshVertex) : ℕ := (firstIdx v l).getD 0

/-- Per-corner post-processing from the source: start from the zero
vertex, fill the nine parsed floats, flip texture V (`v = 1 - v`), and
for version 1.00 scale the position by 0.5. -/
def postCorner (ver : ℤ) (p nrm t : Vec3) : MeshVertex :=
  let t' : Vec3 := (t.1, 1 - t.2.1, t.2.2)
  let p' : Vec3 := if ver = 1 then (p.1 * (1/2), p.2.1 * (1/2), p.2.2 * (1/2)) else p
  ⟨p', nrm, t', (0, 0, 0, 0)⟩

/-- Parse one corner and post-process it. -/
def parseCornerV (fm : FloatModel) (ver : ℤ) (s : List ℕ) :
    Option (MeshVertex × List ℕ) :=
  match fm.parseCorner s with
  | none => none
  | some (p, nrm, t, s1) => some (postCorner ver p nrm t, s1)

/-- One iteration of the inner corner loop: parse, post-process, intern
in the vertex map, and return the assigned index. -/
def readCorner (fm : FloatModel) (ver : ℤ) (s : List ℕ) (verts : List MeshVertex) :
    Option (List ℕ × List MeshVertex × ℤ) :=
  match parseCornerV fm ver s with
  | none => none
  | some (v, s1) =>
    match firstIdx v verts with
    | some i => some (s1, verts, (i : ℤ))
    | none => some (s1, verts ++ [v], (verts.length : ℤ))

/-- The face loop of the text decoder: `n` faces, three corners each. -/
def readFaces (fm : FloatModel) (ver : ℤ) :
    ℕ → List ℕ → List MeshVertex → Option (List ℕ × List MeshVertex × List MeshFace)
  | 0, s, verts => some (s, verts, [])
  | Nat.succ k, s, verts =>
    match readCorner fm ver s verts with
    | none => none
    | some (s1, vs1, i0) =>
      match readCorner fm ver s1 vs1 with
      | none => none
      | some (s2, vs2, i1) =>
        match readCorner fm ver s2 vs2 with
        | none => none
        | some (s3, vs3, i2) =>
          match readFaces fm ver k s3 vs3 with
          | none => none
          | some (s4, vs4, fs) => some (s4, vs4, ((i0, i1, i2) : MeshFace) :: fs)

/-- The stream of post-processed corner vertices read by `readFaces`
(same parses, in the same order, without the interning). -/
def cornerStream (fm : FloatModel) (ver : ℤ) :
    ℕ → List ℕ → Option (List MeshVertex × List ℕ)
  | 0, s => some ([], s)
  | Nat.succ k, s =>
    match parseCornerV fm ver s with
    | none => none
    | some (v0, s1) =>
      match parseCornerV fm ver s1 with
      | none => none
      | some (v1, s2) =>
        match parseCornerV fm ver s2 with
        | none => none
        | some (v2, s3) =>
          match cornerStream fm ver k s3 with
          | none => none
          | some (cs, s4) => some (v0 :: v1 :: v2 :: cs, s4)

/-! ### Binary decode -/

/-- Byte `i` of the scratch buffer. -/
def getB (b : List ℕ) (i : ℕ) : ℕ := b.getD i 0

/-- Little-endian 16-bit value. -/
def u16le (a b : ℕ) : ℕ := a + 256 * b

/-- Little-endian 32-bit value. -/
def u32le (a b c d : ℕ) : ℕ := a + 256 * b + 65536 * c + 16777216 * d

/-- Overwrite `b[off : off + chunk.length]` with `chunk`. -/
def overwrite (b : List ℕ) (off : ℕ) (chunk : List ℕ) : List ℕ :=
  b.take off ++ chunk ++ b.drop (off + chunk.length)

/-- `bufio.Read` into `b[off : off+k]` with the whole remaining input
buffered: returns EOF error only when nothing remains, otherwise delivers
up to `k` bytes (a short read leaves the tail of the slice stale — the
source ignores the returned byte count). -/
def bufRead (b : List ℕ) (off k : ℕ) (s : List ℕ) : Option (List ℕ × List ℕ) :=
  if s.isEmpty then none
  else some (overwrite b off (s.take k), s.drop k)

/-- The three floats of a vertex record field, at byte offset `off`. -/
def vecAt (fm : FloatModel) (b : List ℕ) (off : ℕ) : Vec3 :=
  (fm.f32from (u32le (getB b off) (getB b (off+1)) (getB b (off+2)) (getB b (off+3))),
   fm.f32from (u32le (getB b (off+4)) (getB b (off+5)) (getB b (off+6)) (getB b (off+7))),
   fm.f32from (u32le (getB b (off+8)) (getB b (off+9)) (getB b (off+10)) (getB b (off+11))))

/-- The vertex loop of the binary decoder (buffer `b` is reused between
iterations, as in the source). -/
def readVerts (fm : FloatModel) (hasColor : Bool) :
    ℕ → List ℕ → List ℕ → Option (List ℕ × List ℕ × List MeshVertex)
  | 0, b, s => some (b, s, [])
  | Nat.succ k, b, s =>
    match bufRead b 0 (if hasColor then nColor else nVertex) s with
    | none => none
    | some (b1, s1) =>
      let v : MeshVertex :=
        ⟨vecAt fm b1 0, vecAt fm b1 12, vecAt fm b1 24,
         if hasColor then (getB b1 36, getB b1 37, getB b1 38, getB b1 39)
         else (0, 0, 0, 0)⟩
      match readVerts fm hasColor k b1 s1 with
      | none => none
      | some (b2, s2, vs) => some (b2, s2, v :: vs)

/-- The face loop of the binary decoder. -/
def readBinFaces : ℕ → List ℕ → List ℕ → Option (List ℕ × List ℕ × List MeshFace)
  | 0, b, s => some (b, s, [])
  | Nat.succ k, b, s =>
    match bufRead b 0 nFace s with
    | none => none
    | some (b1, s1) =>
      let f : MeshFace :=
        ((u32le (getB b1 0) (getB b1 1) (getB b1 2) (getB b1 3) : ℕ),
         (u32le (getB b1 4) (getB b1 5) (getB b1 6) (getB b1 7) : ℕ),
         (u32le (getB b1 8) (getB b1 9) (getB b1 10) (getB b1 11) : ℕ))
      match readBinFaces k b1 s1 with
      | none => none
      | some (b2, s2, fs) => some (b2, s2, f :: fs)

/-- Result of `Mesh.ReadFrom`: the (possibly partially updated) mesh, the
reported byte count, and the error if any. -/
structure ReadResult where
  mesh : Mesh
  n : ℕ
  err : Option String
deriving DecidableEq

/-- The `case Version2_00` branch of `ReadFrom`.  Note the source reads
only `b[nHeaderSize : nHeader-nHeaderSize]` — 8 bytes — after the size
field, so the top two bytes of the face count stay zero. -/
def readBinary (fm : FloatModel) (ver : ℤ) (m : Mesh) (s : List ℕ) (cnt : ℕ) :
    ReadResult :=
  let errAt : String → ReadResult :=
    fun e => ⟨⟨ver, m.HasColor, m.Vertices, m.Faces⟩, cnt, some e⟩
  match bufRead (List.replicate nColor 0) 0 nHeaderSize s with
  | none => errAt "EOF"
  | some (b, s1) =>
    if u16le (getB b 0) (getB b 1) = nHeader then
      match bufRead b nHeaderSize ((nHeader - nHeaderSize) - nHeaderSize) s1 with
      | none => errAt "EOF"
      | some (b2, s2) =>
        let rest : Bool → ReadResult := fun hasColor =>
          if getB b2 3 = nFace then
            let nv := u32le (getB b2 4) (getB b2 5) (getB b2 6) (getB b2 7)
            let nf := u32le (getB b2 8) (getB b2 9) (getB b2 10) (getB b2 11)
            match readVerts fm hasColor nv b2 s2 with
            | none => ⟨⟨ver, hasColor, m.Vertices, m.Faces⟩, cnt, some "EOF"⟩
            | some (b3, s3, verts) =>
              match readBinFaces nf b3 s3 with
              | none => ⟨⟨ver, hasColor, verts, m.Faces⟩, cnt, some "EOF"⟩
              | some (_, _, faces) => ⟨⟨ver, hasColor, verts, faces⟩, cnt, none⟩
          else ⟨⟨ver, hasColor, m.Vertices, m.Faces⟩, cnt, some "unexpected face size"⟩
        if getB b2 2 = nVertex then rest false
        else if getB b2 2 = nColor then rest true
        else errAt "unexpected vertex size"
    else errAt "unexpected header size"

/-- `Mesh.ReadFrom`: version sniffing and dispatch.  The reported count is
`min input.length 4096` (see the file comment on buffering). -/
def Mesh.ReadFrom (fm : FloatModel) (m : Mesh) (input : List ℕ) : ReadResult :=
  let cnt := min input.length 4096
  match readLine input with
  | none => ⟨m, cnt, some "EOF"⟩
  | some (l1, r1) =>
    let ver := versionFromBytes l1
    if ver = 1 ∨ ver = 2 then
      match readLine r1 with
      | none => ⟨⟨ver, false, m.Vertices, m.Faces⟩, cnt, some "EOF"⟩
      | some (l2, r2) =>
        let nf := atoiClamp (digitRun l2)
        match readFaces fm ver nf r2 [] with
        | none => ⟨⟨ver, false, m.Vertices, m.Faces⟩, cnt, some "parse error"⟩
        | some (_, verts, faces) => ⟨⟨ver, false, verts, faces⟩, cnt, none⟩
    else if ver = 0 then
      readBinary fm ver (⟨ver, m.HasColor, m.Vertices, m.Faces⟩) r1 cnt
    else
      ⟨⟨ver, m.HasColor, m.Vertices, m.Faces⟩, cnt, some "unknown version"⟩

/-! ### Encoding (`Mesh.WriteTo`) -/

/-- Result of `Mesh.WriteTo`: the bytes written to `w`, the returned
count, and the error if any.  The sink is modelled as always accepting
(write failures of the underlying stream are environment errors). -/
structure WriteResult where
  out : List ℕ
  n : ℕ
  err : Option String
deriving DecidableEq

/-- Little-endian bytes of a 16-bit store (`binary.LittleEndian.PutUint16`). -/
def le16 (x : ℕ) : List ℕ := [x % 256, x / 256 % 256]

/-- Little-endian bytes of a 32-bit store (`binary.LittleEndian.PutUint32`). -/
def le32 (x : ℕ) : List ℕ :=
  [x % 256, x / 256 % 256, x / 65536 % 256, x / 16777216 % 256]

/-- Go `uint32(i)` for `i : int`: reduction modulo 2^32 (two's complement
for negative values). -/
def toU32 (i : ℤ) : ℕ := (i % 4294967296).toNat

/-- Digit characters used by `strconv.AppendUint` (lowercase). -/
def digitChar (d : ℕ) : Char := if d < 10 then Char.ofNat (48 + d) else Char.ofNat (87 + d)

/-- Digit list of `n` in base 32, with fuel (structural recursion so that
closed instances evaluate in the kernel; `n + 1` steps always suffice
since dividing by 32 reaches a single digit long before the fuel runs
out). -/
def base32Aux : ℕ → ℕ → List Char
  | 0, _ => []
  | Nat.succ fuel, n =>
    if n < 32 then [digitChar n]
    else base32Aux fuel (n / 32) ++ [digitChar (n % 32)]

/-- `strconv.AppendUint(b, n, 32)`: the face count is rendered in base 32
(the source passes 32 as the base argument). -/
def toBase32 (n : ℕ) : String := String.mk (base32Aux (n + 1) n)

/-- The header bytes produced by the binary encoder.  The source stores
the vertex-record size and face-record size as 2-byte fields at offsets
2–5 and the counts at 6–13, but writes only `b[:nHeader]` (12 bytes), so
the top two bytes of the face count are cut off. -/
def binHeader (m : Mesh) : List ℕ :=
  le16 nHeader ++ le16 (if m.HasColor then nColor else nVertex) ++ le16 nFace
    ++ le32 m.Vertices.length ++ (le32 m.Faces.length).take 2

/-- One binary vertex record. -/
def vertexBytes (fm : FloatModel) (hasColor : Bool) (v : MeshVertex) : List ℕ :=
  le32 (fm.f32bits v.Position.1) ++ le32 (fm.f32bits v.Position.2.1)
    ++ le32 (fm.f32bits v.Position.2.2)
    ++ le32 (fm.f32bits v.Normal.1) ++ le32 (fm.f32bits v.Normal.2.1)
    ++ le32 (fm.f32bits v.Normal.2.2)
    ++ le32 (fm.f32bits v.Texture.1) ++ le32 (fm.f32bits v.Texture.2.1)
    ++ le32 (fm.f32bits v.Texture.2.2)
    ++ (if hasColor then
          [v.Color.1 % 256, v.Color.2.1 % 256, v.Color.2.2.1 % 256, v.Color.2.2.2 % 256]
        else [])

/-- One binary face record: the three indices as `uint32`, unvalidated. -/
def faceBytes (f : MeshFace) : List ℕ :=
  le32 (toU32 f.1) ++ le32 (toU32 f.2.1) ++ le32 (toU32 f.2.2)

/-- Default vertex (used only under an in-range bound). -/
def vdefault : MeshVertex := ⟨(0, 0, 0), (0, 0, 0), (0, 0, 0), (0, 0, 0, 0)⟩

/-- The textual rendering of one face corner: for version 1.00 the
position is scaled by 2 first; texture V is re-inverted; the nine values
go through `%f` at single precision (`fm.fmtF`). -/
def renderCorner (fm : FloatModel) (ver : ℤ) (v : MeshVertex) : List ℕ :=
  let pos : Vec3 :=
    if ver = 1 then (v.Position.1 * 2, v.Position.2.1 * 2, v.Position.2.2 * 2)
    else v.Position
  strBytes ("[" ++ fm.fmtF pos.1 ++ "," ++ fm.fmtF pos.2.1 ++ "," ++ fm.fmtF pos.2.2
    ++ "][" ++ fm.fmtF v.Normal.1 ++ "," ++ fm.fmtF v.Normal.2.1 ++ ","
    ++ fm.fmtF v.Normal.2.2 ++ "][" ++ fm.fmtF v.Texture.1 ++ ","
    ++ fm.fmtF (1 - v.Texture.2.1) ++ "," ++ fm.fmtF v.Texture.2.2 ++ "]")

/-- The corner-major stream of indices of a face list (the nested loops
`for _, face := range m.Faces { for i := 0; i < len(face); i++ }`
flattened; output and error behaviour are identical). -/
def faceCorners (fs : List MeshFace) : List ℤ :=
  fs.flatMap (fun f => [f.1, f.2.1, f.2.2])

/-- The corner loop of the text encoder: bounds-check the index, then
render the resolved vertex; stop at the first out-of-range index. -/
def writeCorners (fm : FloatModel) (ver : ℤ) (verts : List MeshVertex) :
    List ℤ → List ℕ × Option String
  | [] => ([], none)
  | i :: rest =>
    if i < 0 ∨ (verts.length : ℤ) ≤ i then ([], some "index out of range")
    else
      (renderCorner fm ver (verts.getD i.toNat vdefault) ++ (writeCorners fm ver verts rest).1,
       (writeCorners fm ver verts rest).2)

/-- `Mesh.WriteTo`: signature line, then version dispatch.  For the
unknown version the source returns `0, errors.New("unknown version")` —
count 0 even though the signature bytes were written. -/
def Mesh.WriteTo (fm : FloatModel) (m : Mesh) : WriteResult :=
  let sig := strBytes (versionString m.Version ++ "\n")
  if m.Version = 1 ∨ m.Version = 2 then
    let countLine := strBytes (toBase32 m.Faces.length ++ "\n")
    let body := (writeCorners fm m.Version m.Vertices (faceCorners m.Faces)).1
    ⟨sig ++ countLine ++ body, (sig ++ countLine ++ body).length,
     (writeCorners fm m.Version m.Vertices (faceCorners m.Faces)).2⟩
  else if m.Version = 0 then
    let out := sig ++ binHeader m
      ++ m.Vertices.flatMap (vertexBytes fm m.HasColor)
      ++ m.Faces.flatMap faceBytes
    ⟨out, out.length, none⟩
  else ⟨sig, 0, some "unknown version"⟩

/-! ### Concrete instances for closed evaluations -/

/-- Left-pad a string with zeros to length `k`. -/
def padZeros (s : String) (k : ℕ) : String :=
  String.mk (List.replicate (k - s.length) '0') ++ s

/-- A concrete executable model of `%f` rendering: fixed-point with six
digits after the decimal point (digit-level rounding details of the Go
runtime are irrelevant to every theorem below). -/
def fmtF0 (q : ℚ) : String :=
  let r := q * 1000000 + 1/2
  let scaled : ℤ := Int.fdiv r.num (r.den : ℤ)
  let sign := if scaled < 0 then "-" else ""
  let a := scaled.natAbs
  sign ++ toString (a / 1000000) ++ "." ++ padZeros (toString (a % 1000000)) 6

/-- A concrete executable corner parser: consumes one byte `b` per corner
and yields position `(b,0,0)`, zero normal and zero texture. -/
def parseCorner0 (s : List ℕ) : Option (Vec3 × Vec3 × Vec3 × List ℕ) :=
  match s with
  | [] => none
  | b :: rest => some (((b : ℚ), 0, 0), (0, 0, 0), (0, 0, 0), rest)

/-- A concrete `FloatModel` for witnesses. -/
def fm0 : FloatModel := ⟨fun _ => 0, fun _ => 0, fmtF0, parseCorner0⟩

/-- An empty mesh value used as the receiver of decode calls. -/
def mesh0 : Mesh := ⟨0, false, [], []⟩

/-- An empty binary-version mesh. -/
def meshEmptyBin : Mesh := ⟨0, false, [], []⟩

/-- A version 1.01 mesh with ten faces (and no vertices). -/
def meshTenFaces : Mesh := ⟨2, false, [], List.replicate 10 ((0, 0, 0) : MeshFace)⟩

/-- A mesh whose version is the unknown tag `-1`. -/
def meshUnknownV : Mesh := ⟨-1, false, [], []⟩

/-- A version 1.01 mesh whose single face has a valid first corner and an
out-of-range second corner. -/
def meshBadCorner : Mesh := ⟨2, false, [vdefault], [((0, 5, 0) : MeshFace)]⟩

/-- A binary-version mesh whose single face has indices far outside
`[0, 0)`: positive, negative, and above 2^32. -/
def meshWildIdx : Mesh := ⟨0, false, [], [((5, -1, 34359738368) : MeshFace)]⟩

/-- A mesh whose colour flag is set before decoding. -/
def meshColorIn : Mesh := ⟨0, true, [], []⟩

/-- Binary input whose header-size field is 0 (≠ 12) with one trailing byte. -/
def inputHeader16 : List ℕ := strBytes "version 2.00\n" ++ [0, 0, 99]

/-- Text input with two faces whose six corners repeat two vertex values. -/
def inputDedup : List ℕ := strBytes "version 1.01\n2\n" ++ [5, 5, 9, 9, 9, 9]

/-- Text input whose count line starts with a non-digit. -/
def inputNonDigit : List ℕ := strBytes "version 1.00\nx"

/-- The post-processed vertex produced by `parseCorner0` from byte 5
under version 1.01 (texture V flipped to 1). -/
def vtx5 : MeshVertex := ⟨(5, 0, 0), (0, 0, 0), (0, 1, 0), (0, 0, 0, 0)⟩

/-- The post-processed vertex produced by `parseCorner0` from byte 9
under version 1.01. -/
def vtx9 : MeshVertex := ⟨(9, 0, 0), (0, 0, 0), (0, 1, 0), (0, 0, 0, 0)⟩

/-- The corner stream of `inputDedup`. -/
def csDedup : List MeshVertex := [vtx5, vtx5, vtx9, vtx9, vtx9, vtx9]

/-- Text input for the colour-flag witness. -/
def inputText100 : List ℕ := strBytes "version 1.00\n0\n"

/-- Text input for the index-range witness: one face, three equal corners. -/
def inputOneFace : List ℕ := strBytes "version 1.00\n1\n" ++ [3, 3, 4]

/-! ### Helper lemmas -/

theorem splitLine_append_nl (xs : List ℕ) (h : ∀ b ∈ xs, b ≠ 10) (rest : List ℕ) :
    splitLine (xs ++ 10 :: rest) = (xs, true, rest) := by
  induction xs with
  | nil => simp [splitLine]
  | cons a t ih =>
    have ha : a ≠ 10 := h a (by simp)
    have ih' := ih (fun b hb => h b (by simp [hb]))
    simp [splitLine, ha, ih']

theorem readLine_append (xs rest : List ℕ) (h : ∀ b ∈ xs, b ≠ 10)
    (hcr : xs.getLast? ≠ some 13) :
    readLine (xs ++ 10 :: rest) = some (xs, rest) := by
  have hne : (xs ++ 10 :: rest).isEmpty = false := by cases xs <;> simp
  unfold readLine
  rw [hne]
  simp [splitLine_append_nl xs h, hcr]

theorem sig100_split : strBytes "version 1.00\n" = strBytes "version 1.00" ++ [10] := by decide

theorem sig101_split : strBytes "version 1.01\n" = strBytes "version 1.01" ++ [10] := by decide

theorem sig200_split : strBytes "version 2.00\n" = strBytes "version 2.00" ++ [10] := by decide

theorem readLine_sig100 (rest : List ℕ) :
    readLine (strBytes "version 1.00\n" ++ rest) = some (strBytes "version 1.00", rest) := by
  rw [sig100_split, List.append_assoc]
  exact readLine_append _ rest (by decide) (by decide)

theorem readLine_sig101 (rest : List ℕ) :
    readLine (strBytes "version 1.01\n" ++ rest) = some (strBytes "version 1.01", rest) := by
  rw [sig101_split, List.append_assoc]
  exact readLine_append _ rest (by decide) (by decide)

theorem readLine_sig200 (rest : List ℕ) :
    readLine (strBytes "version 2.00\n" ++ rest) = some (strBytes "version 2.00", rest) := by
  rw [sig200_split, List.append_assoc]
  exact readLine_append _ rest (by decide) (by decide)

@[simp] theorem getB_c0 (a : ℕ) (l : List ℕ) : getB (a :: l) 0 = a := rfl

@[simp] theorem getB_c1 (a b : ℕ) (l : List ℕ) : getB (a :: b :: l) 1 = b := rfl

@[simp] theorem getB_c2 (a b c : ℕ) (l : List ℕ) : getB (a :: b :: c :: l) 2 = c := rfl

@[simp] theorem getB_c3 (a b c d : ℕ) (l : List ℕ) : getB (a :: b :: c :: d :: l) 3 = d := rfl

/-- The binary branch of `WriteTo`, fully assembled. -/
theorem writeTo_bin (fm : FloatModel) (m : Mesh) (h : m.Version = 0) :
    Mesh.WriteTo fm m =
      ⟨strBytes "version 2.00\n" ++ binHeader m
        ++ m.Vertices.flatMap (vertexBytes fm m.HasColor) ++ m.Faces.flatMap faceBytes,
       (strBytes "version 2.00\n" ++ binHeader m
        ++ m.Vertices.flatMap (vertexBytes fm m.HasColor) ++ m.Faces.flatMap faceBytes).length,
       none⟩ := by
  unfold Mesh.WriteTo
  rw [h]
  norm_num [versionString]
  exact ⟨by decide, by decide⟩

/-- The text branch of `WriteTo`, fully assembled. -/
theorem writeTo_text (fm : FloatModel) (m : Mesh) (h : m.Version = 1 ∨ m.Version = 2) :
    Mesh.WriteTo fm m =
      ⟨strBytes (versionString m.Version ++ "\n") ++ strBytes (toBase32 m.Faces.length ++ "\n")
        ++ (writeCorners fm m.Version m.Vertices (faceCorners m.Faces)).1,
       (strBytes (versionString m.Version ++ "\n") ++ strBytes (toBase32 m.Faces.length ++ "\n")
        ++ (writeCorners fm m.Version m.Vertices (faceCorners m.Faces)).1).length,
       (writeCorners fm m.Version m.Vertices (faceCorners m.Faces)).2⟩ := by
  unfold Mesh.WriteTo
  rw [if_pos h]

/-- `writeCorners` on a stream whose first out-of-range index is `i`:
everything before `i` is rendered, then the error stops the loop. -/
theorem writeCorners_stop (fm : FloatModel) (ver : ℤ) (verts : List MeshVertex)
    (cs1 : List ℤ) (i : ℤ) (cs2 : List ℤ)
    (hgood : ∀ j ∈ cs1, 0 ≤ j ∧ j < (verts.length : ℤ))
    (hbad : i < 0 ∨ (verts.length : ℤ) ≤ i) :
    writeCorners fm ver verts (cs1 ++ i :: cs2) =
      (cs1.flatMap (fun j => renderCorner fm ver (verts.getD j.toNat vdefault)),
       some "index out of range") := by
  induction cs1 with
  | nil => simp [writeCorners, hbad]
  | cons a t ih =>
    have ha := hgood a (by simp)
    have hcond : ¬(a < 0 ∨ (verts.length : ℤ) ≤ a) := by omega
    have ih' := ih (fun j hj => hgood j (by simp [hj]))
    simp [writeCorners, hcond, ih']

/-- The text branch of `ReadFrom` after both line reads, as a function of
the face-loop result. -/
theorem readFrom_text (fm : FloatModel) (m : Mesh) (input l1 r1 l2 r2 : List ℕ)
    (h1 : readLine input = some (l1, r1))
    (hv : versionFromBytes l1 = 1 ∨ versionFromBytes l1 = 2)
    (h2 : readLine r1 = some (l2, r2)) :
    Mesh.ReadFrom fm m input =
      match readFaces fm (versionFromBytes l1) (atoiClamp (digitRun l2)) r2 [] with
      | none => ⟨⟨versionFromBytes l1, false, m.Vertices, m.Faces⟩,
                 min input.length 4096, some "parse error"⟩
      | some (_, verts, faces) => ⟨⟨versionFromBytes l1, false, verts, faces⟩,
                 min input.length 4096, none⟩ := by
  unfold Mesh.ReadFrom
  rw [h1]
  simp only [h2, if_pos hv]

/-! ### Claim theorems -/

/-- C5 counterexample: on a mesh with an unknown version, `WriteTo`
writes the 13-byte placeholder signature line but returns byte count 0,
not 13 as the claim states. -/
theorem unknown_version_count_cex :
    (Mesh.WriteTo fm0 meshUnknownV).err = some "unknown version" ∧
    (Mesh.WriteTo fm0 meshUnknownV).out = strBytes "version x.xx\n" ∧
    (Mesh.WriteTo fm0 meshUnknownV).out.length = 13 ∧
    (Mesh.WriteTo fm0 meshUnknownV).n = 0 ∧
    (Mesh.WriteTo fm0 meshUnknownV).n ≠ (Mesh.WriteTo fm0 meshUnknownV).out.length := by
  decide

/-- C5 (amended): for every mesh whose version is none of the three known
versions, `WriteTo` writes exactly the placeholder signature line, fails
with the "unknown version" error before any payload bytes, and returns
byte count 0 (the source returns `0, err`, not the signature length). -/
theorem unknown_version_writeTo (fm : FloatModel) (m : Mesh)
    (h0 : m.Version ≠ 0) (h1 : m.Version ≠ 1) (h2 : m.Version ≠ 2) :
    (Mesh.WriteTo fm m).out = strBytes (versionString m.Version ++ "\n") ∧
    (Mesh.WriteTo fm m).err = some "unknown version" ∧
    (Mesh.WriteTo fm m).n = 0 := by
  unfold Mesh.WriteTo
  rw [if_neg (by rintro (h | h) <;> simp_all), if_neg h0]
  exact ⟨rfl, rfl, rfl⟩

/-- C5 witness: the amended theorem applied to the concrete unknown-version mesh. -/
theorem unknown_version_writeTo_witness :
    (Mesh.WriteTo fm0 meshUnknownV).out = strBytes (versionString meshUnknownV.Version ++ "\n") ∧
    (Mesh.WriteTo fm0 meshUnknownV).err = some "unknown version" ∧
    (Mesh.WriteTo fm0 meshUnknownV).n = 0 :=
  unknown_version_writeTo fm0 meshUnknownV (by decide) (by decide) (by decide)

/-- C2: on a version 1.01 mesh with ten faces, the bytes following the
signature line are the base-32 rendering "a" of the face count followed
by a newline, not the decimal rendering "10": the source passes 32 as the
base argument of `strconv.AppendUint`, while both the claim and the
format's own decoder (which accepts only ASCII digits) use decimal. -/
theorem text_facecount_base32 :
    (Mesh.WriteTo fm0 meshTenFaces).out = strBytes "version 1.01\na\n" ∧
    (Mesh.WriteTo fm0 meshTenFaces).out ≠ strBytes "version 1.01\n" ++ strBytes "10\n" := by
  decide

/-- C8: for every binary-version mesh, `WriteTo` succeeds with no
index-range check: the output is the signature, the header, the vertex
records, and then each face's three indices reduced modulo 2^32 and
written as little-endian 4-byte integers in list order, whatever their
relation to the vertex count; the returned count is the full output
length. -/
theorem binary_encode_unchecked (fm : FloatModel) (m : Mesh) (h : m.Version = 0) :
    (Mesh.WriteTo fm m).err = none ∧
    (Mesh.WriteTo fm m).out =
      strBytes (versionString m.Version ++ "\n") ++ binHeader m
        ++ m.Vertices.flatMap (vertexBytes fm m.HasColor)
        ++ m.Faces.flatMap faceBytes ∧
    (Mesh.WriteTo fm m).n = (Mesh.WriteTo fm m).out.length := by
  unfold Mesh.WriteTo
  rw [h]
  norm_num

/-- C1: the binary round trip always fails.  The encoder stores the
vertex-record size as a 2-byte field at offsets 2–3 of the header, so
byte 3 of the encoded header is 0; the decoder reads byte 3 as the 1-byte
face-record size and requires it to equal 12, so decoding any `WriteTo`
output of a binary-version mesh stops with "unexpected face size" instead
of round-tripping (the claim's identical-lists conclusion is never
reached for any mesh). -/
theorem binary_roundtrip_fails (fmw fmr : FloatModel) (m m0 : Mesh) (h : m.Version = 0) :
    (Mesh.ReadFrom fmr m0 (Mesh.WriteTo fmw m).out).err = some "unexpected face size" := by
  rw [writeTo_bin fmw m h]
  show (Mesh.ReadFrom fmr m0 _).err = _
  rw [List.append_assoc, List.append_assoc]
  unfold Mesh.ReadFrom
  rw [readLine_sig200]
  have hv : versionFromBytes (strBytes "version 2.00") = 0 := by decide
  simp only [hv]
  norm_num
  unfold readBinary
  cases hc : m.HasColor <;>
    simp [binHeader, le16, le32, bufRead, overwrite, hc, nColor, nVertex, nHeader,
      nHeaderSize, nFace, List.take, List.drop, getB, u16le]

/-- C1 witness: decoding the encoding of the concrete empty binary mesh
fails with the face-size error. -/
theorem binary_roundtrip_fails_witness :
    (Mesh.ReadFrom fm0 mesh0 (Mesh.WriteTo fm0 meshEmptyBin).out).err =
      some "unexpected face size" :=
  binary_roundtrip_fails fm0 fm0 meshEmptyBin mesh0 rfl

/-- C6 counterexample: on the 16-byte input consisting of the binary
signature, a zero header-size field and one trailing byte, `ReadFrom`
fails with the header-size error but reports 16 bytes — the whole input
pulled into the 4096-byte buffer — not the 15 bytes up to and including
the field, as the claim states. -/
theorem header_size_count_cex :
    (Mesh.ReadFrom fm0 mesh0 inputHeader16).err = some "unexpected header size" ∧
    (Mesh.ReadFrom fm0 mesh0 inputHeader16).n = 16 ∧
    (Mesh.ReadFrom fm0 mesh0 inputHeader16).n ≠ 15 := by
  decide

/-- C6 (amended): a binary stream whose 2-byte header-size field is not
12 fails with "unexpected header size", and the reported count is all the
bytes the buffered reader pulled from the source — the full input length
(for inputs within the 4096-byte buffer), which equals the 15 bytes up to
and including the field exactly when nothing follows the field. -/
theorem header_size_error_count (fm : FloatModel) (m : Mesh) (b0 b1 : ℕ)
    (extra : List ℕ) (_hb0 : b0 < 256) (_hb1 : b1 < 256)
    (hne : u16le b0 b1 ≠ nHeader) (hlen : 15 + extra.length ≤ 4096) :
    (Mesh.ReadFrom fm m (strBytes "version 2.00\n" ++ (b0 :: b1 :: extra))).err
      = some "unexpected header size" ∧
    (Mesh.ReadFrom fm m (strBytes "version 2.00\n" ++ (b0 :: b1 :: extra))).n
      = 15 + extra.length := by
  unfold Mesh.ReadFrom
  rw [readLine_sig200]
  have hv : versionFromBytes (strBytes "version 2.00") = 0 := by decide
  simp only [hv]
  norm_num
  unfold readBinary
  have hbr : bufRead (List.replicate nColor 0) 0 nHeaderSize (b0 :: b1 :: extra)
      = some (b0 :: b1 :: List.replicate 38 0, extra) := rfl
  simp only [hbr]
  rw [if_neg (by simpa [getB] using hne)]
  have h13 : (strBytes "version 2.00\n").length = 13 := by decide
  exact ⟨rfl, by simp only [ReadResult.n]; omega⟩

/-- C6 witness: the amended theorem at the input that ends exactly at the
2-byte field, reporting 15 bytes. -/
theorem header_size_error_count_witness :
    (Mesh.ReadFrom fm0 mesh0 (strBytes "version 2.00\n" ++ (0 :: 0 :: []))).err
      = some "unexpected header size" ∧
    (Mesh.ReadFrom fm0 mesh0 (strBytes "version 2.00\n" ++ (0 :: 0 :: []))).n
      = 15 + ([] : List ℕ).length :=
  header_size_error_count fm0 mesh0 0 0 [] (by decide) (by decide) (by decide) (by decide)

/-- C7 counterexample: on a version 1.01 mesh with one vertex and the
single face (0, 5, 0), `WriteTo` fails with the out-of-range error only
after writing the face's first corner: the output is 99 bytes, not just
the 15 bytes of signature and count line as the claim ("before writing
any of that face's bytes") requires. -/
theorem text_encode_face_bytes_cex :
    (Mesh.WriteTo fm0 meshBadCorner).err = some "index out of range" ∧
    (Mesh.WriteTo fm0 meshBadCorner).out.length = 99 ∧
    (Mesh.WriteTo fm0 meshBadCorner).out ≠ strBytes "version 1.01\n1\n" := by
  decide

/-- C7 (amended): a text-format mesh containing an out-of-range face
index fails with the out-of-range error and returns the count of bytes
written so far; the error strikes before the offending corner's bytes,
but corners earlier in the corner stream — including earlier corners of
the same face — are already written. -/
theorem text_encode_index_error (fm : FloatModel) (m : Mesh)
    (hv : m.Version = 1 ∨ m.Version = 2)
    (cs1 : List ℤ) (i : ℤ) (cs2 : List ℤ)
    (hsplit : faceCorners m.Faces = cs1 ++ i :: cs2)
    (hgood : ∀ j ∈ cs1, 0 ≤ j ∧ j < (m.Vertices.length : ℤ))
    (hbad : i < 0 ∨ (m.Vertices.length : ℤ) ≤ i) :
    (Mesh.WriteTo fm m).err = some "index out of range" ∧
    (Mesh.WriteTo fm m).out =
      strBytes (versionString m.Version ++ "\n")
        ++ strBytes (toBase32 m.Faces.length ++ "\n")
        ++ cs1.flatMap (fun j => renderCorner fm m.Version (m.Vertices.getD j.toNat vdefault)) ∧
    (Mesh.WriteTo fm m).n = (Mesh.WriteTo fm m).out.length := by
  rw [writeTo_text fm m hv, hsplit, writeCorners_stop fm m.Version m.Vertices cs1 i cs2 hgood hbad]
  exact ⟨rfl, rfl, rfl⟩

/-- C7 witness: the amended theorem at the concrete mesh whose face is
(0, 5, 0) with one vertex; the first corner is written, the second stops
the encode. -/
theorem text_encode_index_error_witness :
    (Mesh.WriteTo fm0 meshBadCorner).err = some "index out of range" ∧
    (Mesh.WriteTo fm0 meshBadCorner).out =
      strBytes (versionString meshBadCorner.Version ++ "\n")
        ++ strBytes (toBase32 meshBadCorner.Faces.length ++ "\n")
        ++ ([(0 : ℤ)]).flatMap
            (fun j => renderCorner fm0 meshBadCorner.Version
              (meshBadCorner.Vertices.getD j.toNat vdefault)) ∧
    (Mesh.WriteTo fm0 meshBadCorner).n = (Mesh.WriteTo fm0 meshBadCorner).out.length :=
  text_encode_index_error fm0 meshBadCorner (by decide) [0] 5 [0] (by decide)
    (by decide) (by decide)

/-- C8 witness: the theorem applied to a mesh whose only face has indices
5, -1 and 2^35 against an empty vertex list. -/
theorem binary_encode_unchecked_witness :
    (Mesh.WriteTo fm0 meshWildIdx).err = none ∧
    (Mesh.WriteTo fm0 meshWildIdx).out =
      strBytes (versionString meshWildIdx.Version ++ "\n") ++ binHeader meshWildIdx
        ++ meshWildIdx.Vertices.flatMap (vertexBytes fm0 meshWildIdx.HasColor)
        ++ meshWildIdx.Faces.flatMap faceBytes ∧
    (Mesh.WriteTo fm0 meshWildIdx).n = (Mesh.WriteTo fm0 meshWildIdx).out.length :=
  binary_encode_unchecked fm0 meshWildIdx (by decide)

/-- C4: after a successful decode of an input whose signature line is
"version 1.00" or "version 1.01", the mesh's colour flag is false,
whatever its value before the call (the text branch assigns
`m.HasColor = false` unconditionally). -/
theorem text_decode_hascolor_false (fm : FloatModel) (m : Mesh) (input l1 r1 : List ℕ)
    (h1 : readLine input = some (l1, r1))
    (hv : versionFromBytes l1 = 1 ∨ versionFromBytes l1 = 2)
    (_hok : (Mesh.ReadFrom fm m input).err = none) :
    (Mesh.ReadFrom fm m input).mesh.HasColor = false := by
  simp only [Mesh.ReadFrom, h1]
  rw [if_pos hv]
  cases readLine r1 with
  | none => rfl
  | some p =>
    obtain ⟨l2, r2⟩ := p
    dsimp only
    cases readFaces fm (versionFromBytes l1) (atoiClamp (digitRun l2)) r2 [] with
    | none => rfl
    | some t =>
      obtain ⟨s3, verts, faces⟩ := t
      rfl

/-- C4 witness: decoding a version 1.00 input over a mesh whose flag was
set beforehand clears the flag. -/
theorem text_decode_hascolor_false_witness :
    (Mesh.ReadFrom fm0 meshColorIn inputText100).mesh.HasColor = false :=
  text_decode_hascolor_false fm0 meshColorIn inputText100
    (strBytes "version 1.00") (strBytes "0\n") (by decide) (by decide) (by decide)

/-- C10: when the count line of a text-format input begins with a
non-digit byte, the ignored `strconv.Atoi` error yields a face count of
zero and the decode succeeds with empty face and vertex lists. -/
theorem text_nondigit_count_empty (fm : FloatModel) (m : Mesh)
    (input l1 r1 r2 : List ℕ) (b : ℕ) (t : List ℕ)
    (h1 : readLine input = some (l1, r1))
    (hv : versionFromBytes l1 = 1 ∨ versionFromBytes l1 = 2)
    (h2 : readLine r1 = some (b :: t, r2))
    (hb : ¬(48 ≤ b ∧ b ≤ 57)) :
    (Mesh.ReadFrom fm m input).err = none ∧
    (Mesh.ReadFrom fm m input).mesh.Faces = [] ∧
    (Mesh.ReadFrom fm m input).mesh.Vertices = [] := by
  have hdr : digitRun (b :: t) = [] := by
    simp [digitRun, List.takeWhile, decide_eq_false hb]
  have h0 : atoiClamp (digitRun (b :: t)) = 0 := by rw [hdr]; rfl
  have hsome : readFaces fm (versionFromBytes l1) 0 r2 [] = some (r2, [], []) := rfl
  rw [readFrom_text fm m input l1 r1 (b :: t) r2 h1 hv h2]
  simp only [h0, hsome]
  exact ⟨trivial, trivial, trivial⟩

/-- C10 witness: the input "version 1.00\nx" decodes to the empty mesh
with no error. -/
theorem text_nondigit_count_empty_witness :
    (Mesh.ReadFrom fm0 mesh0 inputNonDigit).err = none ∧
    (Mesh.ReadFrom fm0 mesh0 inputNonDigit).mesh.Faces = [] ∧
    (Mesh.ReadFrom fm0 mesh0 inputNonDigit).mesh.Vertices = [] :=
  text_nondigit_count_empty fm0 mesh0 inputNonDigit
    (strBytes "version 1.00") (strBytes "x") [] 120 []
    (by decide) (by decide) (by decide) (by decide)

/-! ### Interning lemmas (the Go vertex map) -/

theorem firstIdx_of_mem (v : MeshVertex) (l : List MeshVertex) (h : v ∈ l) :
    ∃ i, firstIdx v l = some i ∧ i < l.length := by
  induction l with
  | nil => simp at h
  | cons w ws ih =>
    by_cases hw : w = v
    · exact ⟨0, by simp [firstIdx, hw], by simp⟩
    · have hv : v ∈ ws := by
        rcases List.mem_cons.mp h with h' | h'
        · exact absurd h'.symm hw
        · exact h'
      obtain ⟨i, hi, hlt⟩ := ih hv
      refine ⟨i + 1, by simp [firstIdx, hw, hi], by simp; omega⟩

theorem mem_of_firstIdx (v : MeshVertex) (l : List MeshVertex) (i : ℕ)
    (h : firstIdx v l = some i) : v ∈ l := by
  induction l generalizing i with
  | nil => simp [firstIdx] at h
  | cons w ws ih =>
    by_cases hw : w = v
    · simp [hw]
    · simp only [firstIdx, if_neg hw] at h
      cases hf : firstIdx v ws with
      | none => rw [hf] at h; simp at h
      | some j => exact List.mem_cons_of_mem _ (ih j hf)

theorem not_mem_of_firstIdx_none (v : MeshVertex) (l : List MeshVertex)
    (h : firstIdx v l = none) : v ∉ l := by
  intro hm
  obtain ⟨i, hi, -⟩ := firstIdx_of_mem v l hm
  rw [h] at hi
  cases hi

theorem firstIdx_append_of_mem (v : MeshVertex) (l : List MeshVertex) (h : v ∈ l)
    (l2 : List MeshVertex) : firstIdx v (l ++ l2) = firstIdx v l := by
  induction l with
  | nil => simp at h
  | cons w ws ih =>
    by_cases hw : w = v
    · simp [firstIdx, hw]
    · have hv : v ∈ ws := by
        rcases List.mem_cons.mp h with h' | h'
        · exact absurd h'.symm hw
        · exact h'
      simp [firstIdx, hw, ih hv]

theorem firstIdx_append_self (v : MeshVertex) (l : List MeshVertex) (h : v ∉ l) :
    firstIdx v (l ++ [v]) = some l.length := by
  induction l with
  | nil => simp [firstIdx]
  | cons w ws ih =>
    have hw : ¬(w = v) := fun e => h (by simp [e])
    have hws : v ∉ ws := fun hv => h (List.mem_cons_of_mem _ hv)
    simp [firstIdx, hw, ih hws]

theorem mem_insertV_of_mem (l : List MeshVertex) (v w : MeshVertex) (h : w ∈ l) :
    w ∈ insertV l v := by
  unfold insertV
  split
  · exact h
  · simp [h]

theorem mem_insertV_iff (l : List MeshVertex) (v w : MeshVertex) :
    w ∈ insertV l v ↔ w ∈ l ∨ w = v := by
  unfold insertV
  split
  · rename_i hv
    exact ⟨Or.inl, fun h => h.elim id (fun e => e ▸ hv)⟩
  · simp

theorem mem_foldl_insertV_of_mem (cs : List MeshVertex) (l : List MeshVertex)
    (w : MeshVertex) (h : w ∈ l) : w ∈ cs.foldl insertV l := by
  induction cs generalizing l with
  | nil => exact h
  | cons c cs ih => exact ih _ (mem_insertV_of_mem _ _ _ h)

theorem mem_foldl_insertV_iff (cs : List MeshVertex) (l : List MeshVertex)
    (w : MeshVertex) : w ∈ cs.foldl insertV l ↔ w ∈ l ∨ w ∈ cs := by
  induction cs generalizing l with
  | nil => simp
  | cons c cs ih =>
    rw [List.foldl_cons, ih, mem_insertV_iff]
    simp only [List.mem_cons]
    tauto

theorem nodup_insertV (l : List MeshVertex) (v : MeshVertex) (h : l.Nodup) :
    (insertV l v).Nodup := by
  unfold insertV
  split
  · exact h
  · rename_i hv
    simp [List.nodup_append, h, hv]

theorem nodup_foldl_insertV (cs : List MeshVertex) (l : List MeshVertex)
    (h : l.Nodup) : (cs.foldl insertV l).Nodup := by
  induction cs generalizing l with
  | nil => exact h
  | cons c cs ih => exact ih _ (nodup_insertV _ _ h)

theorem firstIdx_insertV_of_mem (l : List MeshVertex) (v w : MeshVertex) (h : v ∈ l) :
    firstIdx v (insertV l w) = firstIdx v l := by
  unfold insertV
  split
  · rfl
  · exact firstIdx_append_of_mem v l h [w]

theorem firstIdx_foldl_insertV (cs : List MeshVertex) (l : List MeshVertex)
    (v : MeshVertex) (h : v ∈ l) : firstIdx v (cs.foldl insertV l) = firstIdx v l := by
  induction cs generalizing l with
  | nil => rfl
  | cons c cs ih =>
    rw [List.foldl_cons, ih _ (mem_insertV_of_mem _ _ _ h), firstIdx_insertV_of_mem _ _ _ h]

theorem idxOf_foldl_insertV (cs : List MeshVertex) (l : List MeshVertex)
    (v : MeshVertex) (h : v ∈ l) : idxOf v (cs.foldl insertV l) = idxOf v l := by
  unfold idxOf
  rw [firstIdx_foldl_insertV cs l v h]

theorem idxOf_lt_of_mem (v : MeshVertex) (l : List MeshVertex) (h : v ∈ l) :
    idxOf v l < l.length := by
  obtain ⟨i, hi, hlt⟩ := firstIdx_of_mem v l h
  unfold idxOf
  rw [hi]
  exact hlt

/-- What one corner iteration does: parse a vertex, intern it, and store
the index of its first occurrence in the updated map. -/
theorem readCorner_spec (fm : FloatModel) (ver : ℤ) (s : List ℕ)
    (verts : List MeshVertex) (s1 : List ℕ) (vs1 : List MeshVertex) (i : ℤ)
    (h : readCorner fm ver s verts = some (s1, vs1, i)) :
    ∃ v, parseCornerV fm ver s = some (v, s1) ∧ vs1 = insertV verts v ∧ v ∈ vs1 ∧
      i = ((idxOf v vs1 : ℕ) : ℤ) := by
  unfold readCorner at h
  cases hp : parseCornerV fm ver s with
  | none => rw [hp] at h; cases h
  | some p =>
    obtain ⟨v, s1'⟩ := p
    rw [hp] at h
    dsimp only at h
    cases hf : firstIdx v verts with
    | some j =>
      rw [hf] at h
      dsimp only at h
      simp only [Option.some.injEq, Prod.mk.injEq] at h
      obtain ⟨ha, hb, hc⟩ := h
      subst ha
      subst hb
      subst hc
      have hm : v ∈ verts := mem_of_firstIdx v verts j hf
      have hins : insertV verts v = verts := by unfold insertV; rw [if_pos hm]
      refine ⟨v, rfl, hins.symm, hm, ?_⟩
      unfold idxOf
      rw [hf]
      rfl
    | none =>
      rw [hf] at h
      dsimp only at h
      simp only [Option.some.injEq, Prod.mk.injEq] at h
      obtain ⟨ha, hb, hc⟩ := h
      subst ha
      subst hb
      subst hc
      have hnm : v ∉ verts := not_mem_of_firstIdx_none v verts hf
      have hins : insertV verts v = verts ++ [v] := by unfold insertV; rw [if_neg hnm]
      refine ⟨v, rfl, hins.symm, by simp, ?_⟩
      unfold idxOf
      rw [firstIdx_append_self v verts hnm]
      rfl

/-- The face loop, related to its corner stream: on success the final
vertex list is the fold of first-occurrence insertion over the stream,
and every face corner stores the first-occurrence index of its vertex in
the final list. -/
theorem readFaces_spec (fm : FloatModel) (ver : ℤ) :
    ∀ (n : ℕ) (s : List ℕ) (verts : List MeshVertex) (s4 : List ℕ)
      (vsF : List MeshVertex) (fs : List MeshFace),
    readFaces fm ver n s verts = some (s4, vsF, fs) →
    ∃ cs, cornerStream fm ver n s = some (cs, s4) ∧
      vsF = cs.foldl insertV verts ∧
      faceCorners fs = cs.map (fun v => ((idxOf v vsF : ℕ) : ℤ)) ∧
      ∀ v ∈ cs, v ∈ vsF := by
  intro n
  induction n with
  | zero =>
    intro s verts s4 vsF fs h
    obtain ⟨h1, h2, h3⟩ : s = s4 ∧ verts = vsF ∧ [] = fs := by
      injection h with h'
      injection h' with ha hb
      injection hb with hb hc
      exact ⟨ha, hb, hc⟩
    subst h1 h2 h3
    exact ⟨[], rfl, rfl, rfl, by simp⟩
  | succ k ih =>
    intro s verts s4 vsF fs h
    unfold readFaces at h
    cases hc0 : readCorner fm ver s verts with
    | none => rw [hc0] at h; cases h
    | some t0 =>
      obtain ⟨s1, vs1, i0⟩ := t0
      rw [hc0] at h
      dsimp only at h
      cases hc1 : readCorner fm ver s1 vs1 with
      | none => rw [hc1] at h; cases h
      | some t1 =>
        obtain ⟨s2, vs2, i1⟩ := t1
        rw [hc1] at h
        dsimp only at h
        cases hc2 : readCorner fm ver s2 vs2 with
        | none => rw [hc2] at h; cases h
        | some t2 =>
          obtain ⟨s3, vs3, i2⟩ := t2
          rw [hc2] at h
          dsimp only at h
          cases hrf : readFaces fm ver k s3 vs3 with
          | none => rw [hrf] at h; cases h
          | some t =>
            obtain ⟨s4', vs4, fs'⟩ := t
            rw [hrf] at h
            dsimp only at h
            obtain ⟨h1, h2, h3⟩ : s4' = s4 ∧ vs4 = vsF ∧ ((i0, i1, i2) : MeshFace) :: fs' = fs := by
              injection h with h'
              injection h' with ha hb
              injection hb with hb hc
              exact ⟨ha, hb, hc⟩
            rw [← h1, ← h2, ← h3]
            obtain ⟨v0, hp0, hins0, hm0, hi0⟩ := readCorner_spec fm ver s verts s1 vs1 i0 hc0
            obtain ⟨v1, hp1, hins1, hm1, hi1⟩ := readCorner_spec fm ver s1 vs1 s2 vs2 i1 hc1
            obtain ⟨v2, hp2, hins2, hm2, hi2⟩ := readCorner_spec fm ver s2 vs2 s3 vs3 i2 hc2
            obtain ⟨cs', hcs', hfold, hfaces, hmem⟩ := ih s3 vs3 s4' vs4 fs' hrf
            have hF1 : vs4 = (v1 :: v2 :: cs').foldl insertV vs1 := by
              rw [List.foldl_cons, List.foldl_cons, ← hins1, ← hins2]
              exact hfold
            have hF2 : vs4 = (v2 :: cs').foldl insertV vs2 := by
              rw [List.foldl_cons, ← hins2]
              exact hfold
            refine ⟨v0 :: v1 :: v2 :: cs', ?_, ?_, ?_, ?_⟩
            · unfold cornerStream
              rw [hp0]
              dsimp only
              rw [hp1]
              dsimp only
              rw [hp2]
              dsimp only
              rw [hcs']
            · rw [List.foldl_cons, List.foldl_cons, List.foldl_cons,
                ← hins0, ← hins1, ← hins2]
              exact hfold
            · have e0 : idxOf v0 vs4 = idxOf v0 vs1 := by
                rw [hF1]
                exact idxOf_foldl_insertV _ _ _ hm0
              have e1 : idxOf v1 vs4 = idxOf v1 vs2 := by
                rw [hF2]
                exact idxOf_foldl_insertV _ _ _ hm1
              have e2 : idxOf v2 vs4 = idxOf v2 vs3 := by
                rw [hfold]
                exact idxOf_foldl_insertV _ _ _ hm2
              simp only [faceCorners, List.flatMap_cons, List.map_cons]
              rw [e0, e1, e2, ← hi0, ← hi1, ← hi2]
              simp only [List.cons_append, List.nil_append]
              rw [show (fs' : List MeshFace).flatMap (fun f => [f.1, f.2.1, f.2.2])
                    = faceCorners fs' from rfl, hfaces]
            · intro v hv
              rcases List.mem_cons.mp hv with e | hv
              · subst e
                rw [hF1]
                exact mem_foldl_insertV_of_mem _ _ _ hm0
              rcases List.mem_cons.mp hv with e | hv
              · subst e
                rw [hF2]
                exact mem_foldl_insertV_of_mem _ _ _ hm1
              rcases List.mem_cons.mp hv with e | hv
              · subst e
                rw [hfold]
                exact mem_foldl_insertV_of_mem _ _ _ hm2
              · exact hmem v hv

/-- A successful text decode comes from a successful face loop, and the
resulting mesh carries the loop's vertex and face lists. -/
theorem readFrom_text_success (fm : FloatModel) (m : Mesh) (input l1 r1 l2 r2 : List ℕ)
    (h1 : readLine input = some (l1, r1))
    (hv : versionFromBytes l1 = 1 ∨ versionFromBytes l1 = 2)
    (h2 : readLine r1 = some (l2, r2))
    (hok : (Mesh.ReadFrom fm m input).err = none) :
    ∃ s4 verts faces,
      readFaces fm (versionFromBytes l1) (atoiClamp (digitRun l2)) r2 [] = some (s4, verts, faces) ∧
      (Mesh.ReadFrom fm m input).mesh.Vertices = verts ∧
      (Mesh.ReadFrom fm m input).mesh.Faces = faces := by
  rw [readFrom_text fm m input l1 r1 l2 r2 h1 hv h2] at hok ⊢
  cases hrf : readFaces fm (versionFromBytes l1) (atoiClamp (digitRun l2)) r2 [] with
  | none => rw [hrf] at hok; cases hok
  | some t =>
    obtain ⟨s4, verts, faces⟩ := t
    exact ⟨s4, verts, faces, rfl, rfl, rfl⟩

/-- C3: text decode deduplicates by exact equality of the post-processed
vertices: the resulting vertex list is the first-occurrence fold of the
corner stream (so each distinct value appears exactly once, in
first-occurrence order, and it contains exactly the stream's values), and
the corner-major list of face indices is the stream mapped through the
first-occurrence index in the final vertex list — two corners with
identical vertex content share one entry. -/
theorem text_decode_dedup (fm : FloatModel) (m : Mesh)
    (input l1 r1 l2 r2 : List ℕ) (cs : List MeshVertex) (srem : List ℕ)
    (h1 : readLine input = some (l1, r1))
    (hv : versionFromBytes l1 = 1 ∨ versionFromBytes l1 = 2)
    (h2 : readLine r1 = some (l2, r2))
    (hcs : cornerStream fm (versionFromBytes l1) (atoiClamp (digitRun l2)) r2
      = some (cs, srem))
    (hok : (Mesh.ReadFrom fm m input).err = none) :
    (Mesh.ReadFrom fm m input).mesh.Vertices = cs.foldl insertV [] ∧
    (Mesh.ReadFrom fm m input).mesh.Vertices.Nodup ∧
    (∀ v, v ∈ (Mesh.ReadFrom fm m input).mesh.Vertices ↔ v ∈ cs) ∧
    faceCorners (Mesh.ReadFrom fm m input).mesh.Faces
      = cs.map (fun v => ((idxOf v (Mesh.ReadFrom fm m input).mesh.Vertices : ℕ) : ℤ)) := by
  obtain ⟨s4, verts, faces, hrf, hV, hF⟩ :=
    readFrom_text_success fm m input l1 r1 l2 r2 h1 hv h2 hok
  obtain ⟨cs0, hcs0, hfold, hfaces, hmem⟩ :=
    readFaces_spec fm (versionFromBytes l1) (atoiClamp (digitRun l2)) r2 [] s4 verts faces hrf
  have hcc : cs0 = cs ∧ s4 = srem := by
    have h' := hcs.symm.trans hcs0
    injection h' with h'
    injection h' with ha hb
    exact ⟨ha.symm, hb.symm⟩
  obtain ⟨hcc1, -⟩ := hcc
  subst hcc1
  refine ⟨by rw [hV, hfold], ?_, ?_, ?_⟩
  · rw [hV, hfold]
    exact nodup_foldl_insertV cs0 [] List.nodup_nil
  · intro v
    rw [hV, hfold, mem_foldl_insertV_iff]
    simp
  · rw [hV, hF, hfaces]

/-- C3 witness: decoding the concrete two-face input whose six corners
carry only two distinct vertex values. -/
theorem text_decode_dedup_witness :
    (Mesh.ReadFrom fm0 mesh0 inputDedup).mesh.Vertices = csDedup.foldl insertV [] ∧
    (Mesh.ReadFrom fm0 mesh0 inputDedup).mesh.Vertices.Nodup ∧
    faceCorners (Mesh.ReadFrom fm0 mesh0 inputDedup).mesh.Faces
      = csDedup.map (fun v => ((idxOf v (Mesh.ReadFrom fm0 mesh0 inputDedup).mesh.Vertices : ℕ) : ℤ)) := by
  have h := text_decode_dedup fm0 mesh0 inputDedup
    (strBytes "version 1.01") (strBytes "2\n" ++ [5, 5, 9, 9, 9, 9])
    (strBytes "2") [5, 5, 9, 9, 9, 9] csDedup []
    (by decide) (by decide) (by decide) (by decide) (by decide)
  exact ⟨h.1, h.2.1, h.2.2.2⟩

/-- C9: on every successful text decode, every index of every face —
the corner-major stream `faceCorners` of the face list — lies in
`[0, length of the vertex list)`, by construction of the deduplication. -/
theorem text_decode_indices_in_range (fm : FloatModel) (m : Mesh)
    (input l1 r1 l2 r2 : List ℕ)
    (h1 : readLine input = some (l1, r1))
    (hv : versionFromBytes l1 = 1 ∨ versionFromBytes l1 = 2)
    (h2 : readLine r1 = some (l2, r2))
    (hok : (Mesh.ReadFrom fm m input).err = none) :
    ∀ j ∈ faceCorners (Mesh.ReadFrom fm m input).mesh.Faces,
      0 ≤ j ∧ j < ((Mesh.ReadFrom fm m input).mesh.Vertices.length : ℤ) := by
  obtain ⟨s4, verts, faces, hrf, hV, hF⟩ :=
    readFrom_text_success fm m input l1 r1 l2 r2 h1 hv h2 hok
  obtain ⟨cs, hcs, hfold, hfaces, hmem⟩ :=
    readFaces_spec fm (versionFromBytes l1) (atoiClamp (digitRun l2)) r2 [] s4 verts faces hrf
  rw [hV, hF, hfaces]
  intro j hj
  rw [List.mem_map] at hj
  obtain ⟨v, hvmem, rfl⟩ := hj
  refine ⟨Int.natCast_nonneg _, ?_⟩
  exact_mod_cast idxOf_lt_of_mem v verts (hmem v hvmem)

/-- C9 witness: the theorem applied to a concrete one-face input; the
first decoded corner index is in range. -/
theorem text_decode_indices_in_range_witness :
    0 ≤ (faceCorners (Mesh.ReadFrom fm0 mesh0 inputOneFace).mesh.Faces).getD 0 0 ∧
    (faceCorners (Mesh.ReadFrom fm0 mesh0 inputOneFace).mesh.Faces).getD 0 0 <
      ((Mesh.ReadFrom fm0 mesh0 inputOneFace).mesh.Vertices.length : ℤ) := by
  have h := text_decode_indices_in_range fm0 mesh0 inputOneFace
    (strBytes "version 1.00") (strBytes "1\n" ++ [3, 3, 4])
    (strBytes "1") [3, 3, 4]
    (by decide) (by decide) (by decide) (by decide)
  exact h _ (by decide)

end Rbxmesh
